import Mathlib

/-!
Verification development for the `utilities` repository (three Python
command-line tools under `web-search-tools/skills/jina-web-tools/scripts`).

The pure text-processing cores of the three scripts are embedded as
executable Lean functions:

* `youtube-channel.py`   — entry processing, filtering, sorting, limiting
  (`get_channel_videos`, `_format_duration`);
* `jina-google-search.py` — markdown result parsing (`should_filter`,
  `parse_results`);
* `youtube-transcript.py` — video-id extraction, caption language and
  format selection (`extract_video_id`, `get_transcript`'s selection logic).

Strings are processed as `List Char` (Python `str` is a sequence of code
points, and `String.length`/slicing in the scripts are code-point based).
Python `dict`s keyed by language code are modelled as association lists in
insertion order, which is exactly the iteration order Python guarantees.
-/

/-! ## Generic character/string helpers (Python semantics) -/

/-- Python `\s` / `str.strip()` whitespace set, restricted to ASCII:
space, tab, newline, carriage return, vertical tab, form feed. -/
def isPyWs (c : Char) : Bool :=
  c = ' ' || c = '\t' || c = '\n' || c = '\r' || c = '\x0b' || c = '\x0c'

/-- ASCII lowering, as `str.lower()` acts on ASCII data. -/
def lowerC (c : Char) : Char :=
  if 'A' ≤ c && c ≤ 'Z' then Char.ofNat (c.toNat + 32) else c

/-- `str.lower()` on a code-point list. -/
def lowerL (s : List Char) : List Char := s.map lowerC

/-- `needle` is a prefix of `hay` (character-wise). -/
def listStartsWith : List Char → List Char → Bool
  | [], _ => true
  | _ :: _, [] => false
  | c :: cs, d :: ds => c == d && listStartsWith cs ds

/-- Python `needle in hay` substring test on code-point lists. -/
def occursIn (n : List Char) : List Char → Bool
  | [] => n.isEmpty
  | c :: cs => listStartsWith n (c :: cs) || occursIn n cs

/-- Python `str.strip()`: drop leading and trailing whitespace. -/
def pyStrip (s : List Char) : List Char :=
  ((s.dropWhile isPyWs).reverse.dropWhile isPyWs).reverse

/-- Truthiness of an optional string (Python: `None` and `""` are falsy). -/
def truthyOpt (o : Option String) : Bool :=
  match o with
  | some s => s ≠ ""
  | none => false

/-! ## `youtube-channel.py` — channel video lister

Embeds `YouTubeChannelExplorer.get_channel_videos` (lines 57-167),
`_format_duration` (lines 174-184) and the `main` limit conversion
(line 223).  The network fetch is the external extraction library; its
result is the `entries` list (possibly containing `None` entries, which
the loop skips). -/

/-- One raw entry as returned by the extraction library; every field the
script reads via `entry.get(...)` is optional. -/
structure Entry where
  id : Option String
  title : Option String
  duration : Option Nat
  view_count : Option Nat
  upload_date : Option String
  description : Option String
deriving DecidableEq, Repr

/-- One processed video record (the dict built at lines 113-131). -/
structure Video where
  index : Nat
  id : String
  title : String
  url : String
  duration : Nat
  duration_human : String
  views : Nat
  upload_date : Option String
  description_snippet : Option String
deriving DecidableEq, Repr

/-- Zero-pad to two digits, as Python `f"{n:02d}"` for `0 ≤ n`. -/
def pad2 (n : Nat) : String :=
  if n < 10 then "0" ++ toString n else toString n

/-- `YouTubeChannelExplorer._format_duration` (lines 174-184).
`if not seconds` catches both `None` and `0`. -/
def format_duration (seconds : Option Nat) : String :=
  match seconds with
  | none => "0:00"
  | some s =>
    if s = 0 then "0:00"
    else
      let hours := s / 3600
      let minutes := (s % 3600) / 60
      let secs := s % 60
      if hours > 0 then
        toString hours ++ ":" ++ pad2 minutes ++ ":" ++ pad2 secs
      else
        toString minutes ++ ":" ++ pad2 secs

/-- The video dict built for entry `e` at 0-based enumeration index `i`
(lines 113-131).  `entry.get('duration') or 0` and
`entry.get('view_count') or 0` turn missing/`None`/`0` into `0`. -/
def mkVideo (i : Nat) (with_dates : Bool) (e : Entry) : Video :=
  let desc := e.description.getD ""
  { index := i + 1
    id := e.id.getD ""
    title := e.title.getD "Unknown"
    url := "https://youtube.com/watch?v=" ++ e.id.getD ""
    duration := e.duration.getD 0
    duration_human := format_duration e.duration
    views := e.view_count.getD 0
    upload_date := if with_dates && truthyOpt e.upload_date then e.upload_date else none
    description_snippet :=
      if desc ≠ "" then
        some (if desc.length > 200 then String.mk (desc.data.take 200) ++ "..." else desc)
      else none }

/-- The entry-processing loop (lines 108-132): enumerate, skip `None`
entries, build the video dicts.  The index is `i + 1` for the position in
the *source* entries list. -/
def processEntries (with_dates : Bool) (entries : List (Option Entry)) : List Video :=
  entries.enum.filterMap fun p =>
    match p.2 with
    | none => none
    | some e => some (mkVideo p.1 with_dates e)

/-- The search filter (lines 134-142): case-insensitive substring match
against title and description snippet; Python `if search:` skips the
filter for `None` and for the empty string. -/
def filterSearch (search : Option String) (videos : List Video) : List Video :=
  match search with
  | none => videos
  | some s =>
    if s = "" then videos
    else
      let sl := lowerL s.data
      videos.filter fun v =>
        occursIn sl (lowerL v.title.data) ||
        occursIn sl (lowerL ((v.description_snippet.getD "").data))

/-- Stable insertion of `x` before the first element `y` with `le x y`. -/
def insertLe (le : α → α → Bool) (x : α) : List α → List α
  | [] => [x]
  | y :: ys => if le x y then x :: y :: ys else y :: insertLe le x ys

/-- Stable sort (insertion sort).  `le x y` means `x` may be placed before
`y`; ties keep source order, exactly the guarantee of Python's stable
`list.sort`. -/
def stableSort (le : α → α → Bool) : List α → List α
  | [] => []
  | x :: xs => insertLe le x (stableSort le xs)

/-- The sort dispatch (lines 144-151).  `reverse=True` on a stable sort is
modelled by the flipped key comparison; `"recency"` (or anything else)
leaves the order unchanged. -/
def sortVideos (sort_by : String) (videos : List Video) : List Video :=
  if sort_by = "views" then stableSort (fun a b => b.views ≤ a.views) videos
  else if sort_by = "duration" then stableSort (fun a b => b.duration ≤ a.duration) videos
  else if sort_by = "duration_asc" then stableSort (fun a b => a.duration ≤ b.duration) videos
  else videos

/-- The limit step (lines 153-155): `if limit and limit > 0: videos[:limit]`.
`None`, `0` and negative limits leave the list unchanged. -/
def applyLimit (limit : Option Int) (videos : List Video) : List Video :=
  match limit with
  | none => videos
  | some n => if 0 < n then videos.take n.toNat else videos

/-- The post-fetch pipeline of `get_channel_videos` (lines 108-155):
process entries, filter, sort, limit — in that order. -/
def get_channel_videos (entries : List (Option Entry)) (limit : Option Int)
    (sort_by : String) (search : Option String) (with_dates : Bool) : List Video :=
  applyLimit limit (sortVideos sort_by (filterSearch search (processEntries with_dates entries)))

/-- `main`'s limit conversion (line 223): `args.limit if args.limit > 0 else None`. -/
def mainLimit (limit : Int) : Option Int :=
  if limit > 0 then some limit else none

/-! ## `jina-google-search.py` — search result parser

Embeds `should_filter` (lines 33-41) and `parse_results` (lines 56-131).
Regular expressions are translated into explicit character scans with the
same match semantics (leftmost match, greedy with backtracking where the
pattern requires it). -/

/-- Filtered domains (lines 24-30). -/
def FILTER_DOMAINS : List String :=
  ["google.com", "gstatic.com", "ytimg.com", "googleapis.com", "googleusercontent.com"]

/-- `needle` is a suffix of `hay`. -/
def listEndsWith (n h : List Char) : Bool :=
  listStartsWith n.reverse h.reverse

/-- `re.search(r'\.(png|jpg|gif|svg)$', url, re.I)`: the URL ends with one
of the four image extensions, case-insensitively. -/
def endsWithImage (url : List Char) : Bool :=
  [".png", ".jpg", ".gif", ".svg"].any fun e => listEndsWith e.data (lowerL url)

/-- `should_filter` (lines 33-41), applied to the *raw* URL. -/
def should_filter (url : String) : Bool :=
  FILTER_DOMAINS.any (fun d => occursIn d.data url.data) ||
  listStartsWith "blob:".data url.data ||
  endsWithImage url.data

/-- The suffix after `](` must match `https?://[^)]+\)` up to the end of
the line: a scheme, a nonempty run of non-`)` characters, one final `)`. -/
def isUrlTail (cs : List Char) : Bool :=
  let body : Option (List Char) :=
    if listStartsWith "https://".data cs then some (cs.drop 8)
    else if listStartsWith "http://".data cs then some (cs.drop 7)
    else none
  match body with
  | none => false
  | some b =>
    match b.reverse with
    | [] => false
    | c :: inner => c == ')' && !inner.isEmpty && inner.all fun d => d ≠ ')'

/-- All decompositions `cs = before ++ ']' :: '(' :: after`, in order of
increasing position of the `](`. -/
def linkSplits : List Char → List (List Char × List Char)
  | [] => []
  | c :: cs =>
    let tailSplits := (linkSplits cs).map fun p => (c :: p.1, p.2)
    match c, cs with
    | ']', '(' :: rest => ([], rest) :: tailSplits
    | _, _ => tailSplits

/-- `result_pattern = re.compile(r'^\[### (.+)\]\((https?://[^)]+)\)$')`
(line 65), used with `.match`.  The greedy `(.+)` selects the *last* `](`
whose remainder matches the URL-and-`)` tail; the groups are the title and
the URL (without the closing parenthesis). -/
def result_pattern_match (line : List Char) : Option (List Char × List Char) :=
  if listStartsWith "[### ".data line then
    ((linkSplits (line.drop 5)).reverse.find? fun p => !p.1.isEmpty && isUrlTail p.2).map
      fun p => (p.1, p.2.dropLast)
  else none

/-- Index of the first occurrence of `![`. -/
def findImageMark : List Char → Option Nat
  | [] => none
  | '!' :: '[' :: _ => some 0
  | _ :: cs => (findImageMark cs).map (· + 1)

/-- `re.sub(r'\s*!\[.*$', '', raw_title)` (line 78): truncate at the first
`![`, also removing the whitespace run immediately before it. -/
def stripImageMarkdown (cs : List Char) : List Char :=
  match findImageMark cs with
  | none => cs
  | some q => ((cs.take q).reverse.dropWhile isPyWs).reverse

/-- `re.sub(r'[\\›»].*$', '', title)` (line 79): truncate at the first
backslash or breadcrumb character. -/
def stripBreadcrumb (cs : List Char) : List Char :=
  cs.takeWhile fun c => !(c = '\\' || c = '›' || c = '»')

/-- Scanner for `collapseWs`: the flag records whether the previous
character belonged to a whitespace run whose single space was already
emitted. -/
def collapseWsAux : List Char → Bool → List Char
  | [], _ => []
  | c :: cs, inRun =>
    if isPyWs c then
      if inRun then collapseWsAux cs true else ' ' :: collapseWsAux cs true
    else c :: collapseWsAux cs false

/-- `re.sub(r'\s+', ' ', title)` (line 80): collapse each maximal
whitespace run into a single space. -/
def collapseWs (cs : List Char) : List Char :=
  collapseWsAux cs false

/-- Full title cleanup (lines 78-81). -/
def cleanTitle (raw : List Char) : List Char :=
  pyStrip (collapseWs (stripBreadcrumb (stripImageMarkdown raw)))

/-- `clean_url = re.sub(r'[#?].*$', '', url)` (line 84): truncate at the
first `#` or `?`. -/
def stripQuery (cs : List Char) : List Char :=
  cs.takeWhile fun c => !(c = '#' || c = '?')

/-- `re.match(r'^[a-z0-9.-]+\.[a-z]{2,}$', line, re.I)` (line 107): the
whole line is a bare domain.  This holds exactly when the maximal trailing
alphabetic run has length at least 2, is preceded by a dot, and the part
before that dot is nonempty and drawn from `[a-z0-9.-]` (case-insensitive). -/
def isBareDomain (cs : List Char) : Bool :=
  let revRun := cs.reverse.takeWhile Char.isAlpha
  2 ≤ revRun.length &&
  (match cs.reverse.drop revRun.length with
   | '.' :: pre => !pre.isEmpty && pre.all fun c => c.isAlpha || c.isDigit || c = '.' || c = '-'
   | _ => false)

/-- The skip conditions of the description scan (lines 102-109), applied
to the stripped line, in source order. -/
def isSkipLine (l : List Char) : Bool :=
  listStartsWith "[".data l ||
  listStartsWith "http".data l ||
  listStartsWith "![".data l ||
  listStartsWith "*".data l ||
  occursIn "feedback".data (lowerL l) ||
  isBareDomain l ||
  l.length < 30

/-- The early-stop condition of the description scan (line 98): the next
result header or a section heading. -/
def isStopLine (l : List Char) : Bool :=
  (result_pattern_match l).isSome || listStartsWith "##".data l

/-- Scanner state for `removeEmphasis`: `none` means normal scanning;
`some acc` means an `_` was seen and `acc` holds the (reversed) run of
non-underscore characters read since. -/
def removeEmphAux : List Char → Option (List Char) → List Char
  | [], none => []
  | [], some acc => '_' :: acc.reverse
  | c :: cs, none =>
    if c = '_' then removeEmphAux cs (some [])
    else c :: removeEmphAux cs none
  | c :: cs, some acc =>
    if c = '_' then
      if acc.isEmpty then '_' :: removeEmphAux cs (some [])
      else acc.reverse ++ removeEmphAux cs none
    else removeEmphAux cs (some (c :: acc))

/-- `re.sub(r'_([^_]+)_', r'\1', desc)` (line 114): each non-overlapping
`_text_` (text nonempty, without underscores) is replaced by `text`;
scanning resumes after the closing underscore. -/
def removeEmphasis (cs : List Char) : List Char :=
  removeEmphAux cs none

/-- `re.sub(r'\[Read more\].*$', '', desc)` (line 115): truncate at the
first literal `[Read more]`. -/
def stripReadMore : List Char → List Char
  | [] => []
  | c :: cs =>
    if listStartsWith "[Read more]".data (c :: cs) then []
    else c :: stripReadMore cs

def isUpperC (c : Char) : Bool := 'A' ≤ c && c ≤ 'Z'

def isLowerC (c : Char) : Bool := 'a' ≤ c && c ≤ 'z'

/-- Greedy `\d{1,2},`: two digits then a comma, else one digit then a
comma; returns the remainder after the comma. -/
def dropDayComma (rest : List Char) : Option (List Char) :=
  let two : Option (List Char) :=
    match rest with
    | d1 :: d2 :: ',' :: r => if d1.isDigit && d2.isDigit then some r else none
    | _ => none
  match two with
  | some r => some r
  | none =>
    match rest with
    | d1 :: ',' :: r => if d1.isDigit then some r else none
    | _ => none

/-- `re.sub(r'^[A-Z][a-z]{2} \d{1,2}, \d{4} — ', '', desc)` (line 116):
drop a leading date stamp such as `Jan 5, 2024 — `. -/
def dropDatePrefix (cs : List Char) : List Char :=
  match cs with
  | a :: b :: c :: ' ' :: rest =>
    if isUpperC a && isLowerC b && isLowerC c then
      match dropDayComma rest with
      | some (' ' :: y1 :: y2 :: y3 :: y4 :: ' ' :: '—' :: ' ' :: tail) =>
        if y1.isDigit && y2.isDigit && y3.isDigit && y4.isDigit then tail else cs
      | _ => cs
    else cs
  | _ => cs

/-- Full description cleanup (lines 113-117). -/
def cleanDesc (l : List Char) : List Char :=
  pyStrip (dropDatePrefix (stripReadMore (removeEmphasis l)))

/-- The description scan body (lines 94-121) over the look-ahead window:
strip the line; stop at a header or section; skip noise lines; otherwise
clean the line and accept it when its cleaned length exceeds 30. -/
def findDescGo : List (List Char) → String
  | [] => ""
  | l :: ls =>
    let nl := pyStrip l
    if isStopLine nl then ""
    else if isSkipLine nl then findDescGo ls
    else
      let d := cleanDesc nl
      if 30 < d.length then String.mk d else findDescGo ls

/-- `for j in range(i + 1, min(i + 10, len(lines)))` (line 94): the window
is the (at most) 9 lines following the header line. -/
def findDescription (rest : List (List Char)) : String :=
  findDescGo (rest.take 9)

/-- One parsed search result (lines 123-127). -/
structure SearchResult where
  title : String
  url : String
  description : String
deriving DecidableEq, Repr

/-- The `while i < len(lines)` loop of `parse_results` (lines 68-129):
`seen` is the set of already accepted canonicalized URLs. -/
def parseLoop : List (List Char) → List String → List SearchResult
  | [], _ => []
  | line :: rest, seen =>
    match result_pattern_match line with
    | none => parseLoop rest seen
    | some (rawTitle, url) =>
      let title := cleanTitle rawTitle
      let clean_url := stripQuery url
      if should_filter (String.mk url) || seen.contains (String.mk clean_url) || title.isEmpty then
        parseLoop rest seen
      else
        { title := String.mk title
          url := String.mk clean_url
          description := findDescription rest } :: parseLoop rest (String.mk clean_url :: seen)

/-- `content.split('\\n')` (line 61) on code-point lists: split at every
newline, keeping empty segments. -/
def splitLinesAux : List Char → List Char × List (List Char)
  | [] => ([], [])
  | c :: cs =>
    let r := splitLinesAux cs
    if c = '\n' then ([], r.1 :: r.2)
    else (c :: r.1, r.2)

/-- The list of lines of `content.split('\\n')`. -/
def splitLines (cs : List Char) : List (List Char) :=
  (splitLinesAux cs).1 :: (splitLinesAux cs).2

/-- `parse_results` (lines 56-131). -/
def parse_results (content : String) : List SearchResult :=
  parseLoop (splitLines content.data) []

/-- Modelled from the spec (§4.1): scan forward up to 9 subsequent lines;
stop early at the next result header or section heading; skip noise
lines; clean the candidates; the description is the first cleaned
candidate longer than 30 characters, else empty. -/
def descriptionSpec (rest : List (List Char)) : String :=
  let window := (rest.take 9).map fun l => pyStrip l
  let scanned := window.takeWhile fun l => !(isStopLine l)
  let candidates := scanned.filter fun l => !(isSkipLine l)
  (((candidates.map cleanDesc).find? fun d => 30 < d.length).map String.mk).getD ""

/-! ## `youtube-transcript.py` — transcript extractor

Embeds `extract_video_id` (lines 41-51), the URL-validation step of
`main` (lines 249-253), and the caption-selection logic of
`get_transcript` (lines 70-133).  Caption maps are association lists in
dict insertion order. -/

/-- One caption track from a caption map's track list; the script reads
`caption.get('ext')` and `caption['url']`. -/
structure Track where
  ext : Option String
  url : String
deriving DecidableEq, Repr

/-- A caption map: language code to track list, in insertion order. -/
def CaptionMap := List (String × List Track)

/-- Python dict lookup (first entry wins for a well-formed dict). -/
def dictGet (m : CaptionMap) (k : String) : Option (List Track) :=
  (m.find? fun p => p.1 = k).map fun p => p.2

/-- `list(d.keys())`. -/
def dictKeys (m : CaptionMap) : List String := m.map fun p => p.1

/-- `{**auto_captions, **subtitles}` (line 74): keys of `auto` first (with
values overridden by `subs` on collision), then the new keys of `subs`. -/
def mergeCaptions (auto subs : CaptionMap) : CaptionMap :=
  (auto.map fun p => (p.1, (dictGet subs p.1).getD p.2)) ++
    subs.filter fun p => (dictGet auto p.1).isNone

/-- Python `a or b` on optional strings: `a` unless it is `None` or
empty. -/
def pyOr (a b : Option String) : Option String :=
  match a with
  | some s => if s = "" then b else some s
  | none => b

/-- The language-selection logic of `get_transcript` (lines 82-109),
given the merged caption map, the `language`/`original_language` metadata
fields and the optional preferred language.  An error carries the list of
available language codes. -/
def selectLanguage (all_captions : CaptionMap) (language original_language : Option String)
    (preferred_lang : Option String) : Except (List String) String :=
  let available_langs := dictKeys all_captions
  let original_lang := pyOr language original_language
  if truthyOpt preferred_lang then
    let p := preferred_lang.getD ""
    if available_langs.contains p then Except.ok p
    else
      match available_langs.find? fun lang => occursIn (lowerL p.data) (lowerL lang.data) with
      | some lang => Except.ok lang
      | none => Except.error available_langs
  else
    if truthyOpt original_lang && available_langs.contains (original_lang.getD "") then
      Except.ok (original_lang.getD "")
    else
      match (["en", "en-US", "en-GB"].find? fun lang => available_langs.contains lang) with
      | some lang => Except.ok lang
      | none => Except.ok (available_langs.headD "")

/-- The caption-format selection of `get_transcript` (lines 113-133) over
the selected language's track list: first pass takes the first track with
extension `vtt`; if that produced no (truthy) URL, the second pass takes
the first track, in list order, whose extension is one of `srv1`, `srv2`,
`srv3`, `json3`.  A still-missing URL is the "Could not get subtitle URL"
error, here `none`. -/
def selectFormat (tracks : List Track) : Option (String × String) :=
  let firstPass : Option (String × String) :=
    (tracks.find? fun t => t.ext = some "vtt").map fun t => (t.url, "vtt")
  let urlFalsy : Option (String × String) → Bool :=
    fun r => match r with
    | none => true
    | some (u, _) => u = ""
  let second : Option (String × String) :=
    if urlFalsy firstPass then
      (tracks.find? fun t =>
        t.ext = some "srv1" || t.ext = some "srv2" || t.ext = some "srv3" ||
          t.ext = some "json3").map fun t => (t.url, t.ext.getD "")
    else firstPass
  if urlFalsy second then none else second

/-- `[0-9A-Za-z_-]`, the video-id character class. -/
def idChar (c : Char) : Bool :=
  c.isAlpha || c.isDigit || c = '_' || c = '-'

/-- Try pattern 1, `(?:v=|\/)([0-9A-Za-z_-]{11}).*`, anchored at the head
of `cs`: `v=` or a slash, then exactly 11 id characters for the group
(`.*` always matches the remainder). -/
def pat1At (cs : List Char) : Option (List Char) :=
  let after : Option (List Char) :=
    if listStartsWith "v=".data cs then some (cs.drop 2)
    else if listStartsWith "/".data cs then some (cs.drop 1)
    else none
  match after with
  | none => none
  | some rest =>
    let g := rest.take 11
    if g.length = 11 && g.all idChar then some g else none

/-- Try pattern 2, `(?:embed\/)([0-9A-Za-z_-]{11})`, anchored at the head. -/
def pat2At (cs : List Char) : Option (List Char) :=
  if listStartsWith "embed/".data cs then
    let g := (cs.drop 6).take 11
    if g.length = 11 && g.all idChar then some g else none
  else none

/-- Try pattern 3, `(?:youtu\.be\/)([0-9A-Za-z_-]{11})`, anchored at the
head. -/
def pat3At (cs : List Char) : Option (List Char) :=
  if listStartsWith "youtu.be/".data cs then
    let g := (cs.drop 9).take 11
    if g.length = 11 && g.all idChar then some g else none
  else none

/-- `re.search`: try the anchored matcher at each position, left to
right. -/
def reSearch (tryAt : List Char → Option (List Char)) : List Char → Option (List Char)
  | [] => tryAt []
  | c :: cs =>
    match tryAt (c :: cs) with
    | some g => some g
    | none => reSearch tryAt cs

/-- `YouTubeTranscriptDownloader.extract_video_id` (lines 41-51): the
three patterns are tried in order; the first match's group is returned. -/
def extract_video_id (url : String) : Option String :=
  match reSearch pat1At url.data with
  | some g => some (String.mk g)
  | none =>
    match reSearch pat2At url.data with
    | some g => some (String.mk g)
    | none =>
      match reSearch pat3At url.data with
      | some g => some (String.mk g)
      | none => none

/-- The URL-validation step of `main` (lines 249-253): a failed extraction
prints `Error: Invalid YouTube URL` and exits with status 1. -/
def mainValidateUrl (url : String) : Except (String × Nat) String :=
  match extract_video_id url with
  | none => Except.error ("Error: Invalid YouTube URL", 1)
  | some v => Except.ok v

/-! ## Concrete inputs used in counterexamples and witnesses -/

/-- An entry with the given view count. -/
def viewEntry (v : Nat) : Entry :=
  { id := some "vid", title := some "Title", duration := some 100,
    view_count := some v, upload_date := none, description := none }

/-- Channel entries with view counts 10, 5, 20, in source order. -/
def exampleEntries : List (Option Entry) :=
  [some (viewEntry 10), some (viewEntry 5), some (viewEntry 20)]

/-- Markdown whose single accepted result hides an image extension before
the query string of its URL. -/
def exampleMarkdown : String :=
  "[### Some Nice Title](https://example.com/photo.png?x=1)"

/-- A track list with a `json3` track before an `srv1` track and no VTT
track. -/
def exampleTracks : List Track :=
  [{ ext := some "json3", url := "u1" }, { ext := some "srv1", url := "u2" }]

/-- A caption map used in witnesses. -/
def exampleCaptions : CaptionMap :=
  [("de", [{ ext := some "vtt", url := "ude" }]),
   ("en", [{ ext := some "srv1", url := "uen" }])]

/-- Markdown with one result followed by a long description line. -/
def exampleSearchContent : String :=
  "[### Result One](https://a.com/p?q=2)\nThis is a sufficiently long description line for one."

/-- An automatic caption map used in witnesses. -/
def exampleAuto : CaptionMap :=
  [("en", [{ ext := some "vtt", url := "a-en" }]),
   ("fr", [{ ext := some "srv1", url := "a-fr" }])]

/-- A manual subtitle map used in witnesses; collides with `exampleAuto`
on `fr`. -/
def exampleSubs : CaptionMap :=
  [("fr", [{ ext := some "vtt", url := "s-fr" }]),
   ("de", [{ ext := some "json3", url := "s-de" }])]

/-! ## Stable-sort lemmas -/

theorem insertLe_perm (le : α → α → Bool) (x : α) (l : List α) :
    (insertLe le x l).Perm (x :: l) := by
  induction l with
  | nil => simp [insertLe]
  | cons y ys ih =>
    simp only [insertLe]
    split
    · exact List.Perm.refl _
    · exact (ih.cons y).trans (List.Perm.swap x y ys)

theorem stableSort_perm (le : α → α → Bool) (l : List α) :
    (stableSort le l).Perm l := by
  induction l with
  | nil => simp [stableSort]
  | cons x xs ih =>
    simp only [stableSort]
    exact (insertLe_perm le x _).trans (ih.cons x)

theorem mem_insertLe {le : α → α → Bool} {x z : α} {l : List α}
    (h : z ∈ insertLe le x l) : z = x ∨ z ∈ l := by
  have := (insertLe_perm le x l).mem_iff.mp h
  simpa using this

theorem pairwise_insertLe {le : α → α → Bool}
    (htot : ∀ a b, le a b = true ∨ le b a = true)
    (htrans : ∀ a b c, le a b = true → le b c = true → le a c = true)
    {x : α} {l : List α} (hl : List.Pairwise (fun a b => le a b = true) l) :
    List.Pairwise (fun a b => le a b = true) (insertLe le x l) := by
  induction l with
  | nil => simp [insertLe]
  | cons y ys ih =>
    rcases List.pairwise_cons.mp hl with ⟨hy, hys⟩
    simp only [insertLe]
    split
    · next hxy =>
      refine List.pairwise_cons.mpr ⟨?_, hl⟩
      intro z hz
      rcases List.mem_cons.mp hz with rfl | hz
      · exact hxy
      · exact htrans x y z hxy (hy z hz)
    · next hxy =>
      have hyx : le y x = true := by
        rcases htot x y with h | h
        · exact absurd h hxy
        · exact h
      refine List.pairwise_cons.mpr ⟨?_, ih hys⟩
      intro z hz
      rcases mem_insertLe hz with rfl | hz
      · exact hyx
      · exact hy z hz

theorem stableSort_pairwise {le : α → α → Bool}
    (htot : ∀ a b, le a b = true ∨ le b a = true)
    (htrans : ∀ a b c, le a b = true → le b c = true → le a c = true)
    (l : List α) : List.Pairwise (fun a b => le a b = true) (stableSort le l) := by
  induction l with
  | nil => simp [stableSort]
  | cons x xs ih =>
    simp only [stableSort]
    exact pairwise_insertLe htot htrans ih

theorem filter_insertLe {le : α → α → Bool} {p : α → Bool}
    (hcomp : ∀ x y, p x = true → le x y = false → p y = false)
    (x : α) (l : List α) :
    (insertLe le x l).filter p = (x :: l).filter p := by
  induction l with
  | nil => simp [insertLe]
  | cons y ys ih =>
    simp only [insertLe]
    split
    · rfl
    · next hxy =>
      have hxy' : le x y = false := by simpa using hxy
      by_cases hpx : p x = true
      · have hpy : p y = false := hcomp x y hpx hxy'
        simp [List.filter_cons, hpy, hpx, ih]
      · have hpx' : p x = false := by simpa using hpx
        simp [List.filter_cons, hpx', ih]

theorem stableSort_filter {le : α → α → Bool} {p : α → Bool}
    (hcomp : ∀ x y, p x = true → le x y = false → p y = false)
    (l : List α) : (stableSort le l).filter p = l.filter p := by
  induction l with
  | nil => rfl
  | cons x xs ih =>
    simp only [stableSort]
    rw [filter_insertLe hcomp, List.filter_cons, List.filter_cons, ih]

/-! ## Membership helper lemmas for the channel pipeline -/

theorem mem_applyLimit {limit : Option Int} {l : List Video} {v : Video}
    (h : v ∈ applyLimit limit l) : v ∈ l := by
  cases limit with
  | none => exact h
  | some n =>
    simp only [applyLimit] at h
    split at h
    · exact (List.take_sublist _ _).mem h
    · exact h

theorem mem_sortVideos {s : String} {l : List Video} {v : Video}
    (h : v ∈ sortVideos s l) : v ∈ l := by
  unfold sortVideos at h
  split_ifs at h with h1 h2 h3
  · exact (stableSort_perm _ l).mem_iff.mp h
  · exact (stableSort_perm _ l).mem_iff.mp h
  · exact (stableSort_perm _ l).mem_iff.mp h
  · exact h

theorem mem_filterSearch {search : Option String} {l : List Video} {v : Video}
    (h : v ∈ filterSearch search l) : v ∈ l := by
  cases search with
  | none => exact h
  | some s =>
    simp only [filterSearch] at h
    split at h
    · exact h
    · exact (List.filter_sublist _).mem h

theorem processEntries_mem {wd : Bool} {entries : List (Option Entry)} {v : Video}
    (h : v ∈ processEntries wd entries) :
    ∃ i e, entries.get? i = some (some e) ∧ v = mkVideo i wd e := by
  rcases List.mem_filterMap.mp h with ⟨⟨i, o⟩, hmem, heq⟩
  cases o with
  | none => simp at heq
  | some e =>
    refine ⟨i, e, ?_, ?_⟩
    · exact List.mk_mem_enum_iff_get?.mp hmem
    · exact (Option.some_inj.mp heq).symm

/-! ## Claims C1, C2, C8, C10 — channel video lister -/

/-- C1 (amended): `--sort views` performs a stable sort by view count
descending — the output is pairwise descending in views, is a permutation
of the input, and preserves the source order of videos with equal view
counts; in particular, given channel videos with view counts
[10, 5, 20], the returned order has view counts [20, 10, 5]. -/
theorem claim_C1 :
    (∀ vs : List Video,
      List.Pairwise (fun a b => b.views ≤ a.views) (sortVideos "views" vs)) ∧
    (∀ vs : List Video, (sortVideos "views" vs).Perm vs) ∧
    (∀ (vs : List Video) (n : Nat),
      (sortVideos "views" vs).filter (fun v => v.views == n) =
        vs.filter (fun v => v.views == n)) ∧
    (get_channel_videos exampleEntries none "views" none false).map (fun v => v.views) =
      [20, 10, 5] := by
  have hsort : ∀ vs : List Video,
      sortVideos "views" vs = stableSort (fun a b => decide (b.views ≤ a.views)) vs := by
    intro vs
    unfold sortVideos
    rw [if_pos rfl]
  have htot : ∀ a b : Video,
      decide (b.views ≤ a.views) = true ∨ decide (a.views ≤ b.views) = true := by
    intro a b
    rcases Nat.le_total b.views a.views with h | h
    · exact Or.inl (decide_eq_true h)
    · exact Or.inr (decide_eq_true h)
  have htrans : ∀ a b c : Video, decide (b.views ≤ a.views) = true →
      decide (c.views ≤ b.views) = true → decide (c.views ≤ a.views) = true := by
    intro a b c h1 h2
    exact decide_eq_true (Nat.le_trans (of_decide_eq_true h2) (of_decide_eq_true h1))
  refine ⟨?_, ?_, ?_, by decide⟩
  · intro vs
    rw [hsort]
    exact (stableSort_pairwise htot htrans vs).imp fun h => of_decide_eq_true h
  · intro vs
    rw [hsort]
    exact stableSort_perm _ vs
  · intro vs n
    rw [hsort]
    refine stableSort_filter ?_ vs
    intro x y hx hxy
    have hx' : x.views = n := by simpa using hx
    have hxy' : ¬ (y.views ≤ x.views) := of_decide_eq_false hxy
    refine beq_eq_false_iff_ne.mpr ?_
    omega

/-- C1 counterexample: with view counts [10, 5, 20] in source order,
`--sort views` returns view counts [20, 10, 5], not [20, 5, 10] as the
claim states. -/
theorem claim_C1_counterexample :
    (get_channel_videos exampleEntries none "views" none false).map (fun v => v.views) =
      [20, 10, 5] ∧
    (get_channel_videos exampleEntries none "views" none false).map (fun v => v.views) ≠
      [20, 5, 10] := by
  constructor
  · decide
  · decide

/-- C2 (amended): the `index` field of each returned video is its 1-based
position in the source entries sequence, assigned before filtering and
sorting: every output video points back to the source entry at position
`index - 1`. -/
theorem claim_C2 (entries : List (Option Entry)) (limit : Option Int) (sort_by : String)
    (search : Option String) (wd : Bool) (v : Video)
    (hv : v ∈ get_channel_videos entries limit sort_by search wd) :
    1 ≤ v.index ∧
      ∃ e, entries.get? (v.index - 1) = some (some e) ∧ v = mkVideo (v.index - 1) wd e := by
  have h1 : v ∈ processEntries wd entries :=
    mem_filterSearch (mem_sortVideos (mem_applyLimit hv))
  rcases processEntries_mem h1 with ⟨i, e, hget, hveq⟩
  have hidx : v.index = i + 1 := by rw [hveq]; rfl
  constructor
  · omega
  · refine ⟨e, ?_, ?_⟩
    · rw [hidx]; exact hget
    · rw [hidx]; exact hveq

/-- C2 counterexample: sorting by views makes the first returned video
carry index 3, so the k-th output video does not have index k. -/
theorem claim_C2_counterexample :
    (get_channel_videos exampleEntries none "views" none false).map (fun v => v.index) =
      [3, 1, 2] ∧
    ¬ (∀ k, (h : k < (get_channel_videos exampleEntries none "views" none false).length) →
        ((get_channel_videos exampleEntries none "views" none false).get ⟨k, h⟩).index
          = k + 1) := by
  constructor
  · decide
  · decide

/-- C2 witness: the amended claim instantiated at the concrete example run. -/
theorem claim_C2_witness :
    1 ≤ 3 ∧ ∃ e, exampleEntries.get? (3 - 1) = some (some e) ∧
      ({ index := 3, id := "vid", title := "Title",
         url := "https://youtube.com/watch?v=vid", duration := 100,
         duration_human := "1:40", views := 20, upload_date := none,
         description_snippet := none } : Video) = mkVideo (3 - 1) false e := by
  have hmem : ({ index := 3, id := "vid", title := "Title",
                 url := "https://youtube.com/watch?v=vid", duration := 100,
                 duration_human := "1:40", views := 20, upload_date := none,
                 description_snippet := none } : Video) ∈
      get_channel_videos exampleEntries none "views" none false := by decide
  simpa using claim_C2 exampleEntries none "views" none false _ hmem

/-- C8: the limit is applied after filtering and sorting; `None` or `0`
returns all matching videos, and a positive limit N returns exactly
`min N available` videos from the head of the filtered/sorted sequence. -/
theorem claim_C8 :
    (∀ (entries : List (Option Entry)) (sort_by : String) (search : Option String) (wd : Bool),
      get_channel_videos entries none sort_by search wd =
        sortVideos sort_by (filterSearch search (processEntries wd entries)) ∧
      get_channel_videos entries (some 0) sort_by search wd =
        get_channel_videos entries none sort_by search wd) ∧
    mainLimit 0 = none ∧
    (∀ (entries : List (Option Entry)) (sort_by : String) (search : Option String) (wd : Bool)
      (n : Int), 0 < n →
      get_channel_videos entries (some n) sort_by search wd =
        (get_channel_videos entries none sort_by search wd).take n.toNat ∧
      (get_channel_videos entries (some n) sort_by search wd).length =
        min n.toNat (get_channel_videos entries none sort_by search wd).length) := by
  refine ⟨fun entries sort_by search wd => ⟨rfl, by simp [get_channel_videos, applyLimit]⟩,
    rfl, fun entries sort_by search wd n hn => ⟨?_, ?_⟩⟩
  · simp [get_channel_videos, applyLimit, hn]
  · simp [get_channel_videos, applyLimit, hn, List.length_take]

/-- C8 witness: the positive-limit case instantiated at a concrete run. -/
theorem claim_C8_witness :
    (get_channel_videos exampleEntries (some 2) "recency" none false).length =
      min ((2 : Int)).toNat (get_channel_videos exampleEntries none "recency" none false).length ∧
    (get_channel_videos exampleEntries (some 2) "recency" none false).length = 2 := by
  refine ⟨(claim_C8.2.2 exampleEntries "recency" none false 2 (by decide)).2, by decide⟩

/-- C10: every produced video has numeric `duration`/`views` defaulting to
0 when the library reports them missing, and the human-readable duration
is "0:00" for a missing or zero duration, H:MM:SS at one hour or more,
and M:SS below one hour, with two-digit zero-padded MM and SS fields. -/
theorem claim_C10 :
    (∀ (i : Nat) (wd : Bool) (e : Entry),
      (mkVideo i wd e).duration = e.duration.getD 0 ∧
      (mkVideo i wd e).views = e.view_count.getD 0 ∧
      (mkVideo i wd e).duration_human = format_duration e.duration) ∧
    format_duration none = "0:00" ∧
    format_duration (some 0) = "0:00" ∧
    (∀ s : Nat, 0 < s →
      format_duration (some s) =
        if 3600 ≤ s then
          toString (s / 3600) ++ ":" ++ pad2 (s % 3600 / 60) ++ ":" ++ pad2 (s % 60)
        else
          toString (s / 60) ++ ":" ++ pad2 (s % 60)) := by
  refine ⟨fun i wd e => ⟨rfl, rfl, rfl⟩, rfl, rfl, fun s hs => ?_⟩
  rcases Nat.lt_or_ge s 3600 with h | h
  · have h0 : s / 3600 = 0 := Nat.div_eq_of_lt h
    have hmod : s % 3600 = s := Nat.mod_eq_of_lt h
    simp [format_duration, Nat.pos_iff_ne_zero.mp hs, h0, hmod, Nat.not_le.mpr h]
  · have h0 : 0 < s / 3600 := Nat.div_pos h (by omega)
    simp [format_duration, Nat.pos_iff_ne_zero.mp hs, h0, h]

/-- C10 witness: the format characterization instantiated at concrete
durations. -/
theorem claim_C10_witness :
    format_duration (some 3661) = "1:01:01" ∧ format_duration (some 65) = "1:05" := by
  have h1 := claim_C10.2.2.2 3661 (by decide)
  have h2 := claim_C10.2.2.2 65 (by decide)
  rw [h1, h2]
  constructor
  · decide
  · decide

/-! ## Helper lemmas for the transcript extractor -/

theorem reSearch_isSome_append (tryAt : List Char → Option (List Char)) (a cs : List Char)
    (h : (tryAt cs).isSome) : (reSearch tryAt (a ++ cs)).isSome := by
  induction a with
  | nil =>
    cases cs with
    | nil => simpa [reSearch] using h
    | cons c cs' =>
      rw [List.nil_append, reSearch]
      split
      · simp
      · next heq => rw [heq] at h; simp at h
  | cons a0 rest ih =>
    rw [List.cons_append, reSearch]
    split
    · simp
    · exact ih

theorem pat1At_veq (g b : List Char) (h11 : g.length = 11) (hid : g.all idChar = true) :
    (pat1At ('v' :: '=' :: (g ++ b))).isSome := by
  have hsw : listStartsWith "v=".data ('v' :: '=' :: (g ++ b)) = true := by
    simp [listStartsWith]
  have htake : (g ++ b).take 11 = g := by
    rw [← h11]; exact List.take_left g b
  simp [pat1At, hsw, htake, h11, hid]

theorem pat1At_slash (g b : List Char) (h11 : g.length = 11) (hid : g.all idChar = true) :
    (pat1At ('/' :: (g ++ b))).isSome := by
  have hsw1 : listStartsWith "v=".data ('/' :: (g ++ b)) = false := by
    simp [listStartsWith]
  have hsw2 : listStartsWith "/".data ('/' :: (g ++ b)) = true := by
    simp [listStartsWith]
  have htake : (g ++ b).take 11 = g := by
    rw [← h11]; exact List.take_left g b
  simp [pat1At, hsw1, hsw2, htake, h11, hid]

theorem extract_isSome_of_pat1 {url : String} (h : (reSearch pat1At url.data).isSome) :
    (extract_video_id url).isSome := by
  unfold extract_video_id
  cases hs : reSearch pat1At url.data with
  | none => rw [hs] at h; simp at h
  | some g => simp

/-! ## Claims C3, C5, C6, C7 — transcript extractor -/

/-- C3 counterexample: with a `json3` track listed before an `srv1` track
(and no VTT track), the code picks the `json3` track — list order, not
the claimed `srv1 > srv2 > srv3 > json3` preference order. -/
theorem claim_C3_counterexample :
    selectFormat exampleTracks = some ("u1", "json3") ∧
    selectFormat exampleTracks ≠ some ("u2", "srv1") := by
  constructor
  · decide
  · decide

/-- C3 (amended): for the selected language (all of whose track URLs are
nonempty), a VTT track is picked if any track has extension vtt (the
first such in list order); otherwise the first track in list order whose
extension is one of srv1, srv2, srv3, json3 is picked — list position,
not a preference order among the four formats, decides. -/
theorem claim_C3 (tracks : List Track) (h : ∀ t ∈ tracks, t.url ≠ "") :
    selectFormat tracks =
      match tracks.find? (fun t => t.ext = some "vtt") with
      | some t => some (t.url, "vtt")
      | none =>
        match tracks.find? (fun t => t.ext = some "srv1" || t.ext = some "srv2" ||
            t.ext = some "srv3" || t.ext = some "json3") with
        | some t => some (t.url, t.ext.getD "")
        | none => none := by
  unfold selectFormat
  cases hvtt : tracks.find? (fun t => t.ext = some "vtt") with
  | some t =>
    have ht : t.url ≠ "" := h t (List.mem_of_find?_eq_some hvtt)
    simp [hvtt, ht]
  | none =>
    cases hfb : tracks.find? (fun t => t.ext = some "srv1" || t.ext = some "srv2" ||
        t.ext = some "srv3" || t.ext = some "json3") with
    | some t =>
      have ht : t.url ≠ "" := h t (List.mem_of_find?_eq_some hfb)
      simp [hvtt, hfb, ht]
    | none => simp [hvtt, hfb]

/-- C3 witness: the amended characterization at a concrete track list. -/
theorem claim_C3_witness :
    selectFormat exampleTracks =
      match exampleTracks.find? (fun t => t.ext = some "srv1" || t.ext = some "srv2" ||
          t.ext = some "srv3" || t.ext = some "json3") with
      | some t => some (t.url, t.ext.getD "")
      | none => none := by
  have h := claim_C3 exampleTracks (by decide)
  rw [h]
  decide

/-- C5: video-id extraction tries the three URL patterns in order and
returns the first match; any URL containing an 11-character id segment
after `v=`, `embed/` or `youtu.be/` extracts successfully, and a URL on
which all three patterns fail makes extraction return nothing, which
`main` reports as "Error: Invalid YouTube URL" with exit status 1. -/
theorem claim_C5 (url : String) :
    (∀ g, reSearch pat1At url.data = some g → extract_video_id url = some (String.mk g)) ∧
    (reSearch pat1At url.data = none → ∀ g, reSearch pat2At url.data = some g →
      extract_video_id url = some (String.mk g)) ∧
    (reSearch pat1At url.data = none → reSearch pat2At url.data = none →
      ∀ g, reSearch pat3At url.data = some g → extract_video_id url = some (String.mk g)) ∧
    (∀ a g b, url.data = a ++ ('v' :: '=' :: g) ++ b → g.length = 11 →
      g.all idChar = true → (extract_video_id url).isSome) ∧
    (∀ a g b, url.data = a ++ ("embed/".data ++ g) ++ b → g.length = 11 →
      g.all idChar = true → (extract_video_id url).isSome) ∧
    (∀ a g b, url.data = a ++ ("youtu.be/".data ++ g) ++ b → g.length = 11 →
      g.all idChar = true → (extract_video_id url).isSome) ∧
    (reSearch pat1At url.data = none → reSearch pat2At url.data = none →
      reSearch pat3At url.data = none →
      extract_video_id url = none ∧
      mainValidateUrl url = Except.error ("Error: Invalid YouTube URL", 1)) := by
  refine ⟨?_, ?_, ?_, ?_, ?_, ?_, ?_⟩
  · intro g hg
    simp [extract_video_id, hg]
  · intro h1 g hg
    simp [extract_video_id, h1, hg]
  · intro h1 h2 g hg
    simp [extract_video_id, h1, h2, hg]
  · intro a g b heq h11 hid
    refine extract_isSome_of_pat1 ?_
    have heq' : url.data = a ++ ('v' :: '=' :: (g ++ b)) := by
      rw [heq]; simp
    rw [heq']
    exact reSearch_isSome_append pat1At a _ (pat1At_veq g b h11 hid)
  · intro a g b heq h11 hid
    refine extract_isSome_of_pat1 ?_
    have heq' : url.data = (a ++ ['e', 'm', 'b', 'e', 'd']) ++ ('/' :: (g ++ b)) := by
      rw [heq]
      rw [show ("embed/".data) = ['e', 'm', 'b', 'e', 'd', '/'] from rfl]
      simp
    rw [heq']
    exact reSearch_isSome_append pat1At _ _ (pat1At_slash g b h11 hid)
  · intro a g b heq h11 hid
    refine extract_isSome_of_pat1 ?_
    have heq' : url.data = (a ++ ['y', 'o', 'u', 't', 'u', '.', 'b', 'e']) ++ ('/' :: (g ++ b)) := by
      rw [heq]
      rw [show ("youtu.be/".data) = ['y', 'o', 'u', 't', 'u', '.', 'b', 'e', '/'] from rfl]
      simp
    rw [heq']
    exact reSearch_isSome_append pat1At _ _ (pat1At_slash g b h11 hid)
  · intro h1 h2 h3
    constructor
    · simp [extract_video_id, h1, h2, h3]
    · simp [mainValidateUrl, extract_video_id, h1, h2, h3]

/-- C5 witness: extraction succeeds on a standard watch URL and the
validation step rejects a patternless URL with exit status 1. -/
theorem claim_C5_witness :
    (extract_video_id "https://www.youtube.com/watch?v=dQw4w9WgXcQ").isSome ∧
    mainValidateUrl "no patterns at all" = Except.error ("Error: Invalid YouTube URL", 1) := by
  constructor
  · exact (claim_C5 "https://www.youtube.com/watch?v=dQw4w9WgXcQ").2.2.2.1
      "https://www.youtube.com/watch?".data "dQw4w9WgXcQ".data [] (by decide) (by decide)
      (by decide)
  · exact ((claim_C5 "no patterns at all").2.2.2.2.2.2 (by decide) (by decide) (by decide)).2

/-- C6: with a preferred language, an exact key match in the merged
caption map wins; otherwise the first available language code containing
the preferred code case-insensitively is selected; otherwise the result
is an error carrying the full list of available language codes. -/
theorem claim_C6 (all_captions : CaptionMap) (language original_language : Option String)
    (p : String) (hp : p ≠ "") :
    ((dictKeys all_captions).contains p = true →
      selectLanguage all_captions language original_language (some p) = Except.ok p) ∧
    ((dictKeys all_captions).contains p = false →
      ∀ k, ((dictKeys all_captions).find? fun lang =>
          occursIn (lowerL p.data) (lowerL lang.data)) = some k →
        selectLanguage all_captions language original_language (some p) = Except.ok k) ∧
    ((dictKeys all_captions).contains p = false →
      ((dictKeys all_captions).find? fun lang =>
          occursIn (lowerL p.data) (lowerL lang.data)) = none →
        selectLanguage all_captions language original_language (some p) =
          Except.error (dictKeys all_captions)) := by
  have htr : truthyOpt (some p) = true := by simp [truthyOpt, hp]
  refine ⟨?_, ?_, ?_⟩
  · intro hc
    have hc' : p ∈ dictKeys all_captions := by simpa using hc
    simp [selectLanguage, htr, hc']
  · intro hc k hk
    have hc' : p ∉ dictKeys all_captions := by simpa using hc
    simp [selectLanguage, htr, hc', hk]
  · intro hc hk
    have hc' : p ∉ dictKeys all_captions := by simpa using hc
    simp [selectLanguage, htr, hc', hk]

/-- C6 witness: at the concrete caption map, `zh` is an error listing the
available languages, and `E` substring-matches the first key `de`. -/
theorem claim_C6_witness :
    selectLanguage exampleCaptions none none (some "zh") = Except.error ["de", "en"] ∧
    selectLanguage exampleCaptions none none (some "E") = Except.ok "de" := by
  constructor
  · exact (claim_C6 exampleCaptions none none "zh" (by decide)).2.2 (by decide) (by decide)
  · exact (claim_C6 exampleCaptions none none "E" (by decide)).2.1 (by decide) "de" (by decide)

theorem dictGet_map_override (subs l : CaptionMap) (k : String) :
    List.find? (fun p => p.1 = k) (l.map fun p => (p.1, (dictGet subs p.1).getD p.2)) =
      (List.find? (fun p => p.1 = k) l).map fun p => (p.1, (dictGet subs p.1).getD p.2) := by
  induction l with
  | nil => rfl
  | cons a rest ih =>
    by_cases hk : a.1 = k
    · rw [List.map_cons, List.find?_cons_of_pos _ (by simpa using hk),
        List.find?_cons_of_pos _ (by simpa using hk)]
      rfl
    · rw [List.map_cons, List.find?_cons_of_neg _ (by simpa using hk),
        List.find?_cons_of_neg _ (by simpa using hk), ih]

theorem dictGet_eq_none_iff (m : CaptionMap) (k : String) :
    dictGet m k = none ↔ k ∉ dictKeys m := by
  induction m with
  | nil => simp [dictGet, dictKeys]
  | cons a rest ih =>
    by_cases hk : a.1 = k
    · have hfind := List.find?_cons_of_pos (p := fun p => decide (p.1 = k)) rest
        (a := a) (by simpa using hk)
      simp [dictGet, dictKeys, hfind, hk]
    · have hfind := List.find?_cons_of_neg (p := fun p => decide (p.1 = k)) rest
        (a := a) (by simpa using hk)
      have hk' : ¬ k = a.1 := fun h => hk h.symm
      simp only [dictGet, dictKeys, List.map_cons, hfind, List.mem_cons]
      rw [show ((List.find? (fun p => decide (p.1 = k)) rest).map fun p => p.2) =
          dictGet rest k from rfl]
      rw [ih]
      simp only [dictKeys]
      constructor
      · intro h hor
        rcases hor with h1 | h2
        · exact hk' h1
        · exact h h2
      · intro h h2
        exact h (Or.inr h2)

theorem dictGet_isNone_eq (m : CaptionMap) (k : String) :
    (dictGet m k).isNone = !((dictKeys m).contains k) := by
  by_cases h : k ∈ dictKeys m
  · cases hd : dictGet m k with
    | none => exact absurd ((dictGet_eq_none_iff m k).mp hd) (not_not_intro h)
    | some v => simp [h]
  · rw [(dictGet_eq_none_iff m k).mpr h]
    simp [h]

theorem find?_filter_of_imp {p g : α → Bool} (l : List α)
    (h : ∀ x, p x = true → g x = true) :
    List.find? p (l.filter g) = List.find? p l := by
  induction l with
  | nil => rfl
  | cons x xs ih =>
    by_cases hg : g x = true
    · rw [List.filter_cons, if_pos hg]
      by_cases hp : p x = true
      · rw [List.find?_cons_of_pos _ hp, List.find?_cons_of_pos _ hp]
      · rw [List.find?_cons_of_neg _ hp, List.find?_cons_of_neg _ hp, ih]
    · have hp : ¬ p x = true := fun hpx => hg (h x hpx)
      rw [List.filter_cons, if_neg hg, ih, List.find?_cons_of_neg _ hp]

theorem mergeCaptions_dictGet (auto subs : CaptionMap) (k : String) :
    dictGet (mergeCaptions auto subs) k =
      match dictGet subs k with
      | some v => some v
      | none => dictGet auto k := by
  have hL : dictGet (mergeCaptions auto subs) k =
      (((List.find? (fun p => p.1 = k) auto).map
          (fun p => (p.1, (dictGet subs p.1).getD p.2))).or
        (List.find? (fun p => p.1 = k)
          (subs.filter fun p => (dictGet auto p.1).isNone))).map (fun p => p.2) := by
    show (List.find? (fun p => p.1 = k) (mergeCaptions auto subs)).map (fun p => p.2) = _
    rw [show mergeCaptions auto subs =
        (auto.map fun p => (p.1, (dictGet subs p.1).getD p.2)) ++
          subs.filter (fun p => (dictGet auto p.1).isNone) from rfl]
    rw [List.find?_append, dictGet_map_override]
  rw [hL]
  cases hA : List.find? (fun p => p.1 = k) auto with
  | some a =>
    have ha : a.1 = k := by simpa using List.find?_some hA
    have hauto : dictGet auto k = some a.2 := by
      show (List.find? (fun p => p.1 = k) auto).map (fun p => p.2) = some a.2
      rw [hA]
      rfl
    cases hS : dictGet subs k with
    | some v =>
      rw [Option.map_some', Option.or_some, Option.map_some']
      simp only [ha, hS]
      rfl
    | none =>
      rw [Option.map_some', Option.or_some, Option.map_some']
      simp only [ha, hS, hauto]
      rfl
  | none =>
    have hauto : dictGet auto k = none := by
      show (List.find? (fun p => p.1 = k) auto).map (fun p => p.2) = none
      rw [hA]
      rfl
    have himp : ∀ x : String × List Track, (decide (x.1 = k)) = true →
        (dictGet auto x.1).isNone = true := by
      intro x hx
      rw [of_decide_eq_true hx, hauto]
      rfl
    rw [Option.map_none', Option.none_or, find?_filter_of_imp subs himp]
    show dictGet subs k = _
    cases hS : dictGet subs k with
    | some v => rfl
    | none => exact hauto.symm

theorem mergeCaptions_dictKeys (auto subs : CaptionMap) :
    dictKeys (mergeCaptions auto subs) =
      dictKeys auto ++ (dictKeys subs).filter fun k => !((dictKeys auto).contains k) := by
  unfold mergeCaptions dictKeys
  rw [List.map_append]
  congr 1
  · rw [List.map_map]
    rfl
  · induction subs with
    | nil => rfl
    | cons x xs ih =>
      rw [List.filter_cons, List.map_cons, List.filter_cons]
      have hpred : ((dictGet auto x.1).isNone) = !((auto.map fun p => p.1).contains x.1) :=
        dictGet_isNone_eq auto x.1
      by_cases hg : (dictGet auto x.1).isNone = true
      · rw [if_pos hg, if_pos (by rw [← hpred]; exact hg), List.map_cons, ih]
      · rw [if_neg hg, if_neg (by rw [← hpred]; exact hg), ih]

/-- C7: the caption map is the merge of the automatic and manual caption
maps with manual entries taking priority on key collision (merged key
order: automatic keys first, then new manual keys); with no preferred
language, selection takes the declared original language when it is a key
of the merged map, else the first of en, en-US, en-GB present, else the
first key in map order. -/
theorem claim_C7 :
    (∀ (auto subs : CaptionMap) (k : String),
      dictGet (mergeCaptions auto subs) k =
        match dictGet subs k with
        | some v => some v
        | none => dictGet auto k) ∧
    (∀ auto subs : CaptionMap,
      dictKeys (mergeCaptions auto subs) =
        dictKeys auto ++ (dictKeys subs).filter fun k => !((dictKeys auto).contains k)) ∧
    (∀ (m : CaptionMap) (language original_language : Option String),
      (truthyOpt (pyOr language original_language) = true →
        (dictKeys m).contains ((pyOr language original_language).getD "") = true →
        selectLanguage m language original_language none =
          Except.ok ((pyOr language original_language).getD "")) ∧
      (truthyOpt (pyOr language original_language) = false ∨
          (dictKeys m).contains ((pyOr language original_language).getD "") = false →
        selectLanguage m language original_language none =
          match ["en", "en-US", "en-GB"].find? (fun l => (dictKeys m).contains l) with
          | some l => Except.ok l
          | none => Except.ok ((dictKeys m).headD ""))) ∧
    (∀ (e : String × List Track) (rest : CaptionMap),
      (dictKeys (e :: rest)).headD "" = e.1) := by
  refine ⟨mergeCaptions_dictGet, mergeCaptions_dictKeys, ?_, fun e rest => rfl⟩
  intro m language original_language
  constructor
  · intro h1 h2
    have h2' : (pyOr language original_language).getD "" ∈ dictKeys m := by simpa using h2
    have houter : truthyOpt (none : Option String) = false := rfl
    simp [selectLanguage, houter, h1, h2']
  · intro h
    have houter : truthyOpt (none : Option String) = false := rfl
    rcases h with h | h
    · simp [selectLanguage, houter, h]
    · have h' : (pyOr language original_language).getD "" ∉ dictKeys m := by simpa using h
      simp [selectLanguage, houter, h']

/-- C7 witness: the merge priority and the no-preferred-language selection
at concrete caption maps. -/
theorem claim_C7_witness :
    dictGet (mergeCaptions exampleAuto exampleSubs) "fr" =
      some [{ ext := some "vtt", url := "s-fr" }] ∧
    selectLanguage exampleCaptions (some "de") none none = Except.ok "de" ∧
    selectLanguage exampleCaptions none none none = Except.ok "en" := by
  refine ⟨?_, ?_, ?_⟩
  · rw [claim_C7.1 exampleAuto exampleSubs "fr"]
    decide
  · have h := (claim_C7.2.2.1 exampleCaptions (some "de") none).1 (by decide) (by decide)
    rw [h]
    rfl
  · have h := (claim_C7.2.2.1 exampleCaptions none none).2 (Or.inl (by decide))
    rw [h]
    rfl

/-! ## Helper lemmas for the search result parser -/

theorem listStartsWith_append (n l t : List Char) (h : listStartsWith n l = true) :
    listStartsWith n (l ++ t) = true := by
  induction n generalizing l with
  | nil => rfl
  | cons c cs ih =>
    cases l with
    | nil => simp [listStartsWith] at h
    | cons d ds =>
      simp only [listStartsWith, List.cons_append, Bool.and_eq_true] at h ⊢
      exact ⟨h.1, ih ds h.2⟩

theorem occursIn_nil_left (t : List Char) : occursIn [] t = true := by
  cases t with
  | nil => rfl
  | cons c cs => simp [occursIn, listStartsWith]

theorem occursIn_append (n l t : List Char) (h : occursIn n l = true) :
    occursIn n (l ++ t) = true := by
  induction l with
  | nil =>
    have hn : n = [] := by simpa [occursIn, List.isEmpty_iff] using h
    rw [hn, List.nil_append]
    exact occursIn_nil_left t
  | cons c cs ih =>
    simp only [occursIn, Bool.or_eq_true, List.cons_append] at h ⊢
    rcases h with h | h
    · exact Or.inl (by simpa using listStartsWith_append n (c :: cs) t h)
    · exact Or.inr (ih h)

theorem occursIn_stripQuery {d url : List Char} (h : occursIn d (stripQuery url) = true) :
    occursIn d url = true := by
  have happ := occursIn_append d (stripQuery url)
    (url.dropWhile fun c => !(c = '#' || c = '?')) h
  rwa [show stripQuery url = url.takeWhile (fun c => !(c = '#' || c = '?')) from rfl,
    List.takeWhile_append_dropWhile] at happ

theorem domains_not_in_clean {raw : List Char} (h : should_filter (String.mk raw) = false)
    {d : String} (hd : d ∈ FILTER_DOMAINS) : occursIn d.data (stripQuery raw) = false := by
  have hany : FILTER_DOMAINS.any (fun dd => occursIn dd.data raw) = false := by
    have h' := h
    simp only [should_filter, Bool.or_eq_false_iff] at h'
    exact h'.1.1
  rw [Bool.eq_false_iff]
  intro htrue
  exact (List.any_eq_false.mp hany) d hd (by simpa using occursIn_stripQuery htrue)

theorem findDescGo_empty_or (ls : List (List Char)) :
    findDescGo ls = "" ∨ 30 < (findDescGo ls).length := by
  induction ls with
  | nil => exact Or.inl rfl
  | cons l rest ih =>
    simp only [findDescGo]
    by_cases h1 : isStopLine (pyStrip l) = true
    · rw [if_pos h1]
      exact Or.inl rfl
    · rw [if_neg h1]
      by_cases h2 : isSkipLine (pyStrip l) = true
      · rw [if_pos h2]
        exact ih
      · rw [if_neg h2]
        by_cases h3 : 30 < (cleanDesc (pyStrip l)).length
        · rw [if_pos h3]
          exact Or.inr h3
        · rw [if_neg h3]
          exact ih

theorem findDescGo_eq_spec (ls : List (List Char)) :
    findDescGo ls =
      Option.getD
        ((((((ls.map fun l => pyStrip l).takeWhile fun l => !(isStopLine l)).filter
          fun l => !(isSkipLine l)).map cleanDesc).find?
            (fun d => 30 < d.length)).map String.mk) "" := by
  induction ls with
  | nil => rfl
  | cons l rest ih =>
    simp only [findDescGo, List.map_cons, List.takeWhile_cons]
    by_cases h1 : isStopLine (pyStrip l) = true
    · rw [if_pos h1]
      simp [h1]
    · have hts : (!isStopLine (pyStrip l)) = true := by simp [h1]
      rw [if_neg h1, if_pos hts, List.filter_cons]
      by_cases h2 : isSkipLine (pyStrip l) = true
      · rw [if_pos h2, if_neg (show ¬ ((!isSkipLine (pyStrip l)) = true) by simp [h2])]
        exact ih
      · have hsk : (!isSkipLine (pyStrip l)) = true := by simp [h2]
        rw [if_neg h2, if_pos hsk, List.map_cons]
        by_cases h3 : 30 < (cleanDesc (pyStrip l)).length
        · rw [if_pos h3, List.find?_cons_of_pos _ (by simpa using h3)]
          rfl
        · rw [if_neg h3, List.find?_cons_of_neg _ (by simpa using h3)]
          exact ih

theorem parseLoop_mem (lines : List (List Char)) (seen : List String) (r : SearchResult)
    (hr : r ∈ parseLoop lines seen) :
    r.title ≠ "" ∧
    (∃ raw : List Char, should_filter (String.mk raw) = false ∧
      r.url = String.mk (stripQuery raw)) ∧
    (r.description = "" ∨ 30 < r.description.length) := by
  induction lines generalizing seen with
  | nil => simp [parseLoop] at hr
  | cons line rest ih =>
    cases hm : result_pattern_match line with
    | none =>
      simp only [parseLoop, hm] at hr
      exact ih seen hr
    | some p =>
      obtain ⟨rawTitle, url⟩ := p
      simp only [parseLoop, hm] at hr
      by_cases hc : (should_filter (String.mk url) ||
          seen.contains (String.mk (stripQuery url)) ||
          (cleanTitle rawTitle).isEmpty) = true
      · rw [if_pos hc] at hr
        exact ih seen hr
      · rw [if_neg hc] at hr
        rcases List.mem_cons.mp hr with rfl | hr
        · have hc' := hc
          simp only [Bool.or_eq_true, not_or] at hc'
          obtain ⟨⟨hsf, _⟩, htitle⟩ := hc'
          refine ⟨?_, ⟨url, by simpa using hsf, rfl⟩, ?_⟩
          · intro heq
            have hnil : cleanTitle rawTitle = [] := by
              have := congrArg String.data heq
              simpa using this
            exact htitle (by rw [hnil]; rfl)
          · exact findDescGo_empty_or (rest.take 9)
        · exact ih _ hr

theorem parseLoop_nodup (lines : List (List Char)) (seen : List String) :
    ((parseLoop lines seen).map (fun r => r.url)).Nodup ∧
    ∀ u ∈ (parseLoop lines seen).map (fun r => r.url), seen.contains u = false := by
  induction lines generalizing seen with
  | nil => simp [parseLoop]
  | cons line rest ih =>
    cases hm : result_pattern_match line with
    | none =>
      simp only [parseLoop, hm]
      exact ih seen
    | some p =>
      obtain ⟨rawTitle, url⟩ := p
      simp only [parseLoop, hm]
      by_cases hc : (should_filter (String.mk url) ||
          seen.contains (String.mk (stripQuery url)) ||
          (cleanTitle rawTitle).isEmpty) = true
      · rw [if_pos hc]
        exact ih seen
      · rw [if_neg hc]
        have hc' := hc
        simp only [Bool.or_eq_true, not_or] at hc'
        obtain ⟨⟨_, hseen⟩, _⟩ := hc'
        obtain ⟨ihn, ihs⟩ := ih (String.mk (stripQuery url) :: seen)
        simp only [List.map_cons, List.nodup_cons]
        refine ⟨⟨?_, ihn⟩, ?_⟩
        · intro hmem
          have hcontains := ihs _ hmem
          rw [List.contains_cons] at hcontains
          simp at hcontains
        · intro u hu
          rcases List.mem_cons.mp hu with rfl | hu
          · simpa using hseen
          · have hcontains := ihs u hu
            rw [List.contains_cons, Bool.or_eq_false_iff] at hcontains
            exact hcontains.2

/-! ## Claims C4, C9 — search result parser -/

/-- C4 counterexample: the markdown line
`[### Some Nice Title](https://example.com/photo.png?x=1)` is accepted —
the raw URL does not end in an image extension — yet its canonicalized
URL `https://example.com/photo.png` matches the image-file pattern of
`should_filter`, contradicting the claim. -/
theorem claim_C4_counterexample :
    (parse_results exampleMarkdown).map (fun r => r.url) =
      ["https://example.com/photo.png"] ∧
    should_filter "https://example.com/photo.png" = true := by
  constructor
  · decide
  · decide

/-- C4 (amended): accepted results have pairwise-distinct canonicalized
URLs and nonempty cleaned titles, and the domain/blob/image filter is
applied to the raw URL before canonicalization — hence no accepted
canonicalized URL contains a filtered domain, but a canonicalized URL may
still match the image-file pattern when the extension was hidden before a
stripped query string. -/
theorem claim_C4 :
    (∀ content : String, ((parse_results content).map (fun r => r.url)).Nodup) ∧
    (∀ (content : String) (r : SearchResult), r ∈ parse_results content →
      r.title ≠ "" ∧
      (∃ raw : List Char, should_filter (String.mk raw) = false ∧
        r.url = String.mk (stripQuery raw)) ∧
      (∀ d ∈ FILTER_DOMAINS, occursIn d.data r.url.data = false)) := by
  constructor
  · intro content
    exact (parseLoop_nodup (splitLines content.data) []).1
  · intro content r hr
    obtain ⟨htitle, ⟨raw, hsf, hurl⟩, _⟩ := parseLoop_mem (splitLines content.data) [] r hr
    refine ⟨htitle, ⟨raw, hsf, hurl⟩, ?_⟩
    intro d hd
    rw [hurl]
    exact domains_not_in_clean hsf hd

/-- C4 witness: the amended claim instantiated at the concrete markdown
input. -/
theorem claim_C4_witness :
    ({ title := "Some Nice Title", url := "https://example.com/photo.png",
       description := "" } : SearchResult) ∈ parse_results exampleMarkdown ∧
    ∀ d ∈ FILTER_DOMAINS,
      occursIn d.data ("https://example.com/photo.png".data) = false := by
  have hmem : ({ title := "Some Nice Title", url := "https://example.com/photo.png",
                 description := "" } : SearchResult) ∈ parse_results exampleMarkdown := by
    decide
  refine ⟨hmem, ?_⟩
  have h := (claim_C4.2 exampleMarkdown _ hmem).2.2
  simpa using h

/-- C9: per accepted result the description scan inspects at most the 9
lines after the header, stops early at the next result header or a
section heading, skips link/URL/image/bullet/feedback/bare-domain/short
lines, cleans the remaining candidates (emphasis, read-more links, date
stamps), and returns the first cleaned candidate longer than 30
characters, else the empty string — and every parsed result's description
is empty or longer than 30 characters; no error is possible. -/
theorem claim_C9 :
    (∀ rest : List (List Char), findDescription rest = descriptionSpec rest) ∧
    (∀ (content : String) (r : SearchResult), r ∈ parse_results content →
      r.description = "" ∨ 30 < r.description.length) := by
  constructor
  · intro rest
    exact findDescGo_eq_spec (rest.take 9)
  · intro content r hr
    exact (parseLoop_mem (splitLines content.data) [] r hr).2.2

/-- C9 witness: the description property instantiated at a concrete
parsed result. -/
theorem claim_C9_witness :
    ({ title := "Result One", url := "https://a.com/p",
       description := "This is a sufficiently long description line for one." } : SearchResult) ∈
      parse_results exampleSearchContent ∧
    ("This is a sufficiently long description line for one." = "" ∨
      30 < ("This is a sufficiently long description line for one." : String).length) := by
  have hmem : ({ title := "Result One", url := "https://a.com/p",
                 description := "This is a sufficiently long description line for one." } :
      SearchResult) ∈ parse_results exampleSearchContent := by
    decide
  exact ⟨hmem, claim_C9.2 exampleSearchContent _ hmem⟩
